import Mathlib

/-!
Verification development for the gogotelehash switch core.

Shallow embedding of:
- the cipherset helpers (SelectCSID, Parts marshalling) from the
  cipherset sources,
- the main controller mailbox loop from controller_main.go,
- the NAT mapper transport from transports/nat/nat_transport.go,
together with theorems about the specified properties.

Go maps are modelled as association lists with unique keys; the
goroutine mailbox is modelled as a step function consuming one typed
request message at a time.
-/

namespace Telehash

/-! ### Association lists standing in for Go maps -/

def lookupA {κ α : Type} [DecidableEq κ] : List (κ × α) → κ → Option α
  | [], _ => none
  | kv :: rest, k => if kv.1 = k then some kv.2 else lookupA rest k

def insertA {κ α : Type} [DecidableEq κ] : List (κ × α) → κ → α → List (κ × α)
  | [], k, v => [(k, v)]
  | kv :: rest, k, v => if kv.1 = k then (k, v) :: rest else kv :: insertA rest k v

def eraseA {κ α : Type} [DecidableEq κ] : List (κ × α) → κ → List (κ × α)
  | [], _ => []
  | kv :: rest, k => if kv.1 = k then rest else kv :: eraseA rest k

/-! ### cipherset: CSID negotiation (SelectCSID) and parts

The cipherset sources define `type Keys map[uint8]Key`; for CSID
selection only the key set matters, so key sets are modelled as lists
of CSIDs (naturals below 256).  `SelectCSID` iterates the first set and
tracks the maximal CSID that also occurs in the second set, starting
from 0, exactly as the Go loop does. -/

def SelectCSID (a b : List Nat) : Nat :=
  a.foldl (fun mx csid => if csid ∈ b ∧ mx < csid then csid else mx) 0

inductive CSErr where
  | invalidKeys
  | invalidParts
deriving DecidableEq

/-- Modelled from the spec: the negotiation wrapper around `SelectCSID`
that reports `ErrInvalidKeys` when the two key sets share no CSID is not
part of the sources (only `SelectCSID` and the `ErrInvalidKeys` value
are); per the spec, negotiation selects the maximum shared CSID and
yields failure `InvalidKeys` when no CSID is shared. -/
def negotiateCSID (a b : List Nat) : Except CSErr Nat :=
  if a.any (fun c => decide (c ∈ b)) then Except.ok (SelectCSID a b)
  else Except.error CSErr.invalidKeys

/-! ### cipherset: hex bytes and Parts marshalling

`Parts` is `map[uint8]string` in the sources, modelled as an association
list of CSID/fingerprint pairs.  `MarshalJSON` hex-encodes every CSID
into a two-character key of a string-to-string JSON object;
`UnmarshalJSON` validates each entry (two-character key, non-empty
value, valid hex key, 52-character value) and rebuilds the map.  The
`encoding/json` layer for `map[string]string` is external to the
repository and is abstracted as the identity on the string-keyed
association list. -/

def hexDigitChar (n : Nat) : Char :=
  if n < 10 then Char.ofNat (48 + n) else Char.ofNat (87 + n)

def hexEncodeByte (b : Nat) : String :=
  String.mk [hexDigitChar (b / 16), hexDigitChar (b % 16)]

def hexDigitVal (c : Char) : Option Nat :=
  if 48 ≤ c.toNat ∧ c.toNat ≤ 57 then some (c.toNat - 48)
  else if 97 ≤ c.toNat ∧ c.toNat ≤ 102 then some (c.toNat - 87)
  else if 65 ≤ c.toNat ∧ c.toNat ≤ 70 then some (c.toNat - 55)
  else none

def hexDecodeByte (s : String) : Option Nat :=
  match s.data with
  | [c1, c2] =>
    match hexDigitVal c1, hexDigitVal c2 with
    | some hi, some lo => some (16 * hi + lo)
    | _, _ => none
  | _ => none

def partsMarshalJSON (p : List (Nat × String)) : List (String × String) :=
  p.map (fun kv => (hexEncodeByte kv.1, kv.2))

def partsUnmarshalJSON : List (String × String) → Except CSErr (List (Nat × String))
  | [] => Except.ok []
  | (k, s) :: rest =>
    if k.length ≠ 2 then Except.error CSErr.invalidParts
    else if s = "" then Except.error CSErr.invalidParts
    else
      match hexDecodeByte k with
      | none => Except.error CSErr.invalidParts
      | some csid =>
        if s.length ≠ 52 then Except.error CSErr.invalidParts
        else
          match partsUnmarshalJSON rest with
          | Except.ok y => Except.ok ((csid, s) :: y)
          | Except.error e => Except.error e

/-! ### Main controller (controller_main.go)

Hashnames, tokens, public keys and network addresses are modelled as
naturals (`via = 0` encodes the zero hashname, `Option` encodes nil
pointers).  The three Go maps of `main_controller` are association
lists; the mailbox is a step function consuming one typed message, and
side effects (replies sent on reply channels, `line.Shutdown()` calls,
seek requests, counter accesses with their atomicity) are recorded in
an effect list. -/

structure addr_t where
  hashname : Nat
  pubkey : Option Nat
  via : Nat
  netaddr : Option Nat
deriving DecidableEq

def addr_zero : addr_t := ⟨0, none, 0, none⟩

structure peer_t where
  addr : addr_t
  is_down : Bool
deriving DecidableEq

structure line_t where
  id : Nat
  peer : peer_t
  peer_down_state : Bool
deriving DecidableEq

structure public_line_key where
  rsa_pubkey : Option Nat
deriving DecidableEq

structure cmd_line_get where
  hashname : Nat
  addr : addr_t
  pub : Option public_line_key
  wantsReply : Bool
deriving DecidableEq

inductive MainMode where
  | running
  | terminating
  | stopped
deriving DecidableEq

structure CtrlState where
  mode : MainMode
  lines : List (Nat × line_t)
  active_lines : List (Nat × line_t)
  peers : List (Nat × peer_t)
  num_open_lines : Int
  num_running_lines : Int
deriving DecidableEq

inductive CounterId where
  | openLines
  | runningLines
  | knownPeers
deriving DecidableEq

inductive Effect where
  | lineShutdown (l : line_t)
  | replyLine (r : Option line_t)
  | replyPeer (r : Option peer_t)
  | replyPeers (r : Option (List peer_t))
  | replyAdd (r : peer_t × Bool)
  | seek (h : Nat)
  | counterMut (c : CounterId) (delta : Int) (isAtomic : Bool)
  | counterRead (c : CounterId) (isAtomic : Bool)
deriving DecidableEq

/-- Modelled from the spec: the candidate-address merge policy (the
`addr_t.update` method and the peer-table merge of peer_table.go are not
in the sources) — keep existing fields, adopt a public key, via or
transport address from the other record when absent. -/
def addr_merge (a b : addr_t) : addr_t :=
  { hashname := a.hashname
    pubkey := match a.pubkey with | some p => some p | none => b.pubkey
    via := if a.via ≠ 0 then a.via else b.via
    netaddr := match a.netaddr with | some n => some n | none => b.netaddr }

/-- Modelled from the spec: `peer_table.add_peer` (peer_table.go is not
in the sources) inserts a record for an unknown hashname with
`discovered = true`, or merges candidate paths/keys into the existing
record with `discovered = false`. -/
def pt_add_peer (peers : List (Nat × peer_t)) (a : addr_t) :
    List (Nat × peer_t) × peer_t × Bool :=
  match lookupA peers a.hashname with
  | some p =>
    let p2 : peer_t := { p with addr := addr_merge p.addr a }
    (insertA peers a.hashname p2, p2, false)
  | none =>
    let p : peer_t := { addr := a, is_down := false }
    (insertA peers a.hashname p, p, true)

/-- Modelled from the spec: marking a peer down mutates the shared peer
record (the peer table itself, peer_table.go, is not in the sources). -/
def pt_set_down (peers : List (Nat × peer_t)) (h : Nat) : List (Nat × peer_t) :=
  match lookupA peers h with
  | some p => insertA peers h { p with is_down := true }
  | none => peers

def insertByDist (h : Nat) (p : peer_t) : List peer_t → List peer_t
  | [] => [p]
  | q :: rest =>
    if Nat.xor p.addr.hashname h ≤ Nat.xor q.addr.hashname h then p :: q :: rest
    else q :: insertByDist h p rest

/-- Modelled from the spec: `find_closest_peers` (peer_table.go is not in
the sources) returns up to n peers in non-decreasing XOR distance to the
target hashname. -/
def pt_find_closest (peers : List (Nat × peer_t)) (h n : Nat) : List peer_t :=
  ((peers.map Prod.snd).foldr (insertByDist h) []).take n

/-- Modelled from the spec: `line_t.Init` (line.go is not in the
sources) creates an idle line owned by the given peer; the local token
is chosen later during the key exchange and is never inspected by
`get_line`, so the model uses the peer hashname as a stand-in. -/
def mk_new_line (p : peer_t) : line_t :=
  { id := p.addr.hashname, peer := p, peer_down_state := false }

def get_line (s : CtrlState) (cmd : cmd_line_get) : CtrlState × Option line_t :=
  match lookupA s.lines cmd.hashname with
  | some line => (s, some line)
  | none =>
    let addr0 : addr_t :=
      { hashname := cmd.hashname
        pubkey := match cmd.pub with | some pk => pk.rsa_pubkey | none => none
        via := 0
        netaddr := none }
    let res := pt_add_peer s.peers (addr_merge addr0 cmd.addr)
    let peer := res.2.1
    let s1 : CtrlState := { s with peers := res.1 }
    if peer.is_down then (s1, none)
    else if (peer.addr.pubkey.isSome ∨ peer.addr.via ≠ 0) ∧ peer.addr.netaddr.isSome then
      let line := mk_new_line peer
      ({ s1 with lines := insertA s1.lines cmd.hashname line }, some line)
    else (s1, none)

def unregister_line (s : CtrlState) (line : line_t) : CtrlState × List Effect :=
  let s1 :=
    if line.peer_down_state then
      { s with peers := pt_set_down s.peers line.peer.addr.hashname }
    else s
  ({ s1 with
      lines := eraseA s1.lines line.peer.addr.hashname
      num_running_lines := s1.num_running_lines - 1 },
   [Effect.counterMut CounterId.runningLines (-1) false])

def add_peer (s : CtrlState) (a : addr_t) : CtrlState × List Effect :=
  let res := pt_add_peer s.peers a
  let s1 : CtrlState := { s with peers := res.1 }
  let s2 :=
    if res.2.2 then
      (get_line s1
        { hashname := res.2.1.addr.hashname, addr := addr_zero
          pub := none, wantsReply := false }).1
    else s1
  (s2, [Effect.replyAdd (res.2.1, res.2.2)])

def seek_discovered_peer (p : peer_t) : List Effect :=
  [Effect.seek p.addr.hashname]

def PopulateStats : List Effect :=
  [Effect.counterRead CounterId.openLines true,
   Effect.counterRead CounterId.runningLines true,
   Effect.counterRead CounterId.knownPeers true]

inductive Msg where
  | statsTick
  | shutdown
  | activate (l : line_t)
  | deactivate (l : line_t)
  | getActive (id : Nat)
  | register (l : line_t)
  | unregister (l : line_t)
  | getLine (cmd : cmd_line_get)
  | getPeer (h : Nat)
  | addPeer (a : addr_t)
  | getClosest (h : Nat) (n : Nat)
deriving DecidableEq

def run_active_loop_step (s : CtrlState) (m : Msg) : CtrlState × List Effect :=
  match m with
  | Msg.statsTick => (s, [])
  | Msg.shutdown =>
    ({ s with mode := MainMode.terminating },
     s.lines.map (fun kv => Effect.lineShutdown kv.2))
  | Msg.activate l =>
    ({ s with
        active_lines := insertA s.active_lines l.id l
        num_open_lines := s.num_open_lines + 1 },
     [Effect.counterMut CounterId.openLines 1 false])
  | Msg.deactivate l =>
    ({ s with
        active_lines := eraseA s.active_lines l.id
        num_open_lines := s.num_open_lines - 1 },
     [Effect.counterMut CounterId.openLines (-1) false])
  | Msg.getActive id => (s, [Effect.replyLine (lookupA s.active_lines id)])
  | Msg.register l =>
    ({ s with
        lines := insertA s.lines l.peer.addr.hashname l
        num_running_lines := s.num_running_lines + 1 },
     [Effect.counterMut CounterId.runningLines 1 false])
  | Msg.unregister l => unregister_line s l
  | Msg.getLine cmd =>
    let r := get_line s cmd
    (r.1, if cmd.wantsReply then [Effect.replyLine r.2] else [])
  | Msg.getPeer h => (s, [Effect.replyPeer (lookupA s.peers h)])
  | Msg.addPeer a => add_peer s a
  | Msg.getClosest h n => (s, [Effect.replyPeers (some (pt_find_closest s.peers h n))])

def run_terminating_loop_step (s : CtrlState) (m : Msg) : CtrlState × List Effect :=
  match m with
  | Msg.statsTick => (s, [])
  | Msg.shutdown => (s, [])
  | Msg.activate l => (s, [Effect.lineShutdown l])
  | Msg.deactivate l =>
    ({ s with
        active_lines := eraseA s.active_lines l.id
        num_open_lines := s.num_open_lines - 1 },
     [Effect.counterMut CounterId.openLines (-1) false])
  | Msg.getActive _ => (s, [Effect.replyLine none])
  | Msg.register l => (s, [Effect.lineShutdown l])
  | Msg.unregister l => unregister_line s l
  | Msg.getLine _ => (s, [Effect.replyLine none])
  | Msg.getPeer _ => (s, [Effect.replyPeer none])
  | Msg.addPeer _ => (s, [])
  | Msg.getClosest _ _ => (s, [Effect.replyPeers none])

def ctrl_step (s : CtrlState) (m : Msg) : CtrlState × List Effect :=
  match s.mode with
  | MainMode.running => run_active_loop_step s m
  | MainMode.terminating =>
    if s.lines.isEmpty then ({ s with mode := MainMode.stopped }, [])
    else run_terminating_loop_step s m
  | MainMode.stopped => (s, [])

def init_state : CtrlState :=
  { mode := MainMode.running, lines := [], active_lines := [], peers := []
    num_open_lines := 0, num_running_lines := 0 }

inductive Reachable : CtrlState → Prop where
  | init : Reachable init_state
  | step (s : CtrlState) (m : Msg) : Reachable s → Reachable (ctrl_step s m).1

/-! ### Concrete sample values used by the claim theorems -/

def sample_line : line_t :=
  { id := 5
    peer := { addr := { hashname := 9, pubkey := none, via := 0, netaddr := none },
              is_down := false }
    peer_down_state := false }

def fresh_addr : addr_t := { hashname := 11, pubkey := some 3, via := 0, netaddr := some 4 }

/-! ### NAT mapper (transports/nat/nat_transport.go)

Transport addresses are modelled as `LAddr` records: `natable` is the
result of the `NATableAddr` capability query plus `InternalAddr()` —
`none` when the address does not implement `NATableAddr`, otherwise the
raw `(proto, ip, port)` triple in which a nil IP is `none` and a
non-positive port is 0.  IPs, external ports and global addresses are
naturals.  The NAT device calls (`GetExternalAddress`,
`GetInternalAddress`, `AddPortMapping`, `MakeGlobal`) are supplied by a
`NatEnv` environment; `AddPortMapping` and `DeletePortMapping` calls
are recorded in the result.  The in-place mutation of shared
`*natMapping` records (the copy loop aliases records between
`t.mapping` and the local map) is modelled by updating the `old` view
(`t.mapping`) and the `cur` view (the local copy) in lock-step. -/

structure LAddr where
  id : Nat
  natable : Option (String × Option Nat × Nat)
deriving DecidableEq

def asNATableAddr (a : LAddr) : Option (String × Nat × Nat) :=
  match a.natable with
  | none => none
  | some (proto, ipq, port) =>
    match ipq with
    | none => none
    | some ip => if proto = "" ∨ port = 0 then none else some (proto, ip, port)

def sweepValid (a : LAddr) : Bool :=
  match a.natable with
  | none => false
  | some (proto, _, port) => if proto = "" ∨ port = 0 then false else true

def delCall (a : LAddr) : String × Nat :=
  match a.natable with
  | none => ("", 0)
  | some (proto, _, port) => (proto, port)

structure natMapping where
  external : Nat
  internal : LAddr
  stale : Bool
deriving DecidableEq

abbrev MKey := String × Nat × Nat
abbrev MTbl := List (MKey × natMapping)

structure NatEnv where
  externalIP : Option Nat
  internalIP : Option Nat
  addPort : String → Nat → Option Nat
  makeGlobal : LAddr → Nat → Nat → Option Nat
  localAddrs : List LAddr

def markStale : MTbl → MTbl
  | [] => []
  | kv :: rest => (kv.1, { kv.2 with stale := true }) :: markStale rest

def setFresh : MTbl → MKey → MTbl
  | [], _ => []
  | kv :: rest, k =>
    (if kv.1 = k then (kv.1, { kv.2 with stale := false }) else kv) :: setFresh rest k

structure UpdAcc where
  old : MTbl
  cur : MTbl
  adds : List (String × Nat)

def updStep (env : NatEnv) (eip iip : Nat) (acc : UpdAcc) (addr : LAddr) : UpdAcc :=
  match asNATableAddr addr with
  | none => acc
  | some (proto, ip, port) =>
    if ip ≠ iip then acc
    else
      match lookupA acc.old (proto, ip, port) with
      | some _ =>
        ⟨setFresh acc.old (proto, ip, port), setFresh acc.cur (proto, ip, port), acc.adds⟩
      | none =>
        match env.addPort proto port with
        | none => ⟨acc.old, acc.cur, acc.adds ++ [(proto, port)]⟩
        | some eport =>
          match env.makeGlobal addr eip eport with
          | none => ⟨acc.old, acc.cur, acc.adds ++ [(proto, port)]⟩
          | some g =>
            ⟨acc.old, insertA acc.cur (proto, ip, port) ⟨g, addr, false⟩,
             acc.adds ++ [(proto, port)]⟩

def swept (kv : MKey × natMapping) : Bool :=
  kv.2.stale && sweepValid kv.2.internal

structure UpdResult where
  dropped : Bool
  tbl : MTbl
  adds : List (String × Nat)
  dels : List (String × Nat)

def updateMappings (env : NatEnv) (tbl : MTbl) : UpdResult :=
  let old0 := markStale tbl
  match env.externalIP with
  | none => ⟨true, old0, [], []⟩
  | some eip =>
    match env.internalIP with
    | none => ⟨true, old0, [], []⟩
    | some iip =>
      let acc := env.localAddrs.foldl (updStep env eip iip) ⟨old0, old0, []⟩
      ⟨false,
       acc.cur.filter (fun kv => ! swept kv),
       acc.adds,
       (acc.cur.filter swept).map (fun kv => delCall kv.2.internal)⟩

def refreshStep (env : NatEnv) (eip iip : Nat)
    (acc : MTbl × List (String × Nat)) (kv : MKey × natMapping) :
    MTbl × List (String × Nat) :=
  match asNATableAddr kv.2.internal with
  | none => acc
  | some (proto, ip, port) =>
    if ip ≠ iip then acc
    else
      match env.addPort proto port with
      | none => (acc.1, acc.2 ++ [(proto, port)])
      | some eport =>
        match env.makeGlobal kv.2.internal eip eport with
        | none => (acc.1, acc.2 ++ [(proto, port)])
        | some g =>
          (acc.1 ++ [(kv.1, { kv.2 with external := g })], acc.2 ++ [(proto, port)])

def refreshMapping (env : NatEnv) (tbl : MTbl) : UpdResult :=
  let old0 := markStale tbl
  match env.externalIP with
  | none => ⟨true, old0, [], []⟩
  | some eip =>
    match env.internalIP with
    | none => ⟨true, old0, [], []⟩
    | some iip =>
      let acc := old0.foldl (refreshStep env eip iip) ([], [])
      ⟨false, acc.1, acc.2, []⟩

inductive TickKind where
  | update
  | refresh
deriving DecidableEq

inductive MapperMode where
  | discover
  | mapping
deriving DecidableEq

structure TickOut where
  hasNat : Bool
  tbl : MTbl
  mode : MapperMode
  adds : List (String × Nat)
  dels : List (String × Nat)

def mappingModeTick (env : NatEnv) (tbl : MTbl) (k : TickKind) : TickOut :=
  let r := match k with
    | TickKind.update => updateMappings env tbl
    | TickKind.refresh => refreshMapping env tbl
  if r.dropped then ⟨false, [], MapperMode.discover, r.adds, r.dels⟩
  else ⟨true, r.tbl, MapperMode.mapping, r.adds, r.dels⟩

def nat_env_fail : NatEnv :=
  { externalIP := none
    internalIP := some 1
    addPort := fun _ _ => some 7
    makeGlobal := fun _ _ _ => some 5
    localAddrs := [] }

/-! ### Derived notions for the NAT reconciliation -/

def keysOf (t : MTbl) : List MKey := t.map Prod.fst

def relevantKey (iip : Nat) (a : LAddr) : Option MKey :=
  match asNATableAddr a with
  | none => none
  | some (proto, ip, port) => if ip = iip then some (proto, ip, port) else none

def relKeys (iip : Nat) (addrs : List LAddr) : List MKey :=
  addrs.filterMap (relevantKey iip)

def freshAt (ks : List MKey) : MTbl → MTbl
  | [] => []
  | kv :: rest =>
    (if kv.1 ∈ ks then (kv.1, { kv.2 with stale := false }) else kv) :: freshAt ks rest

def nat_env_ok : NatEnv :=
  { externalIP := some 8
    internalIP := some 1
    addPort := fun _ _ => some 7
    makeGlobal := fun _ _ _ => some 5
    localAddrs := [⟨9, some ("udp", some 1, 2)⟩] }

/-! ### Theorems -/

theorem lookupA_insertA {κ α : Type} [DecidableEq κ] (l : List (κ × α)) (k k' : κ) (v : α) :
    lookupA (insertA l k v) k' = if k = k' then some v else lookupA l k' := by
  induction l with
  | nil =>
    by_cases h : k = k' <;> simp [insertA, lookupA, h]
  | cons kv rest ih =>
    by_cases h1 : kv.1 = k
    · simp only [insertA, if_pos h1, lookupA]
      by_cases h2 : k = k'
      · simp [h2]
      · have h3 : ¬ kv.1 = k' := by rw [h1]; exact h2
        simp [h2, h3]
    · simp only [insertA, if_neg h1, lookupA, ih]
      by_cases h2 : kv.1 = k'
      · have h3 : ¬ k = k' := by
          intro hc
          exact h1 (by rw [hc, h2])
        simp [h2, h3]
      · simp [h2]

theorem lookupA_mem {κ α : Type} [DecidableEq κ] {l : List (κ × α)} {k : κ} {v : α}
    (h : lookupA l k = some v) : (k, v) ∈ l := by
  induction l with
  | nil => simp [lookupA] at h
  | cons kv rest ih =>
    by_cases h1 : kv.1 = k
    · simp only [lookupA, if_pos h1] at h
      have hv : kv.2 = v := Option.some.inj h
      have hkv : kv = (k, v) := Prod.ext h1 hv
      rw [← hkv]
      exact List.mem_cons_self _ _
    · simp only [lookupA, if_neg h1] at h
      exact List.mem_cons_of_mem _ (ih h)

theorem mem_insertA {κ α : Type} [DecidableEq κ] {l : List (κ × α)} {k : κ} {v : α}
    {kv' : κ × α} (h : kv' ∈ insertA l k v) : kv' = (k, v) ∨ kv' ∈ l := by
  induction l with
  | nil => simp [insertA] at h; exact Or.inl h
  | cons kv rest ih =>
    by_cases h1 : kv.1 = k
    · simp only [insertA, if_pos h1] at h
      rcases List.mem_cons.mp h with h2 | h2
      · exact Or.inl h2
      · exact Or.inr (List.mem_cons_of_mem _ h2)
    · simp only [insertA, if_neg h1] at h
      rcases List.mem_cons.mp h with h2 | h2
      · exact Or.inr (h2 ▸ List.mem_cons_self _ _)
      · rcases ih h2 with h3 | h3
        · exact Or.inl h3
        · exact Or.inr (List.mem_cons_of_mem _ h3)

theorem mem_eraseA {κ α : Type} [DecidableEq κ] {l : List (κ × α)} {k : κ}
    {kv' : κ × α} (h : kv' ∈ eraseA l k) : kv' ∈ l := by
  induction l with
  | nil => simp [eraseA] at h
  | cons kv rest ih =>
    by_cases h1 : kv.1 = k
    · simp only [eraseA, if_pos h1] at h
      exact List.mem_cons_of_mem _ h
    · simp only [eraseA, if_neg h1] at h
      rcases List.mem_cons.mp h with h2 | h2
      · exact h2 ▸ List.mem_cons_self _ _
      · exact List.mem_cons_of_mem _ (ih h2)

theorem selectCSID_foldl_ge (b : List Nat) (a : List Nat) :
    ∀ mx : Nat, mx ≤ a.foldl (fun mx csid => if csid ∈ b ∧ mx < csid then csid else mx) mx := by
  induction a with
  | nil => intro mx; simp
  | cons c rest ih =>
    intro mx
    simp only [List.foldl_cons]
    by_cases h : c ∈ b ∧ mx < c
    · simp only [if_pos h]
      exact le_trans (le_of_lt h.2) (ih c)
    · simp only [if_neg h]
      exact ih mx

theorem selectCSID_foldl_ub (b : List Nat) (a : List Nat) :
    ∀ mx c : Nat, c ∈ a → c ∈ b → c ≤ a.foldl (fun mx csid => if csid ∈ b ∧ mx < csid then csid else mx) mx := by
  induction a with
  | nil => intro mx c hc; simp at hc
  | cons d rest ih =>
    intro mx c hc hcb
    simp only [List.foldl_cons]
    rcases List.mem_cons.mp hc with h | h
    · subst h
      by_cases hp : c ∈ b ∧ mx < c
      · simp only [if_pos hp]
        exact selectCSID_foldl_ge b rest c
      · simp only [if_neg hp]
        have : ¬ mx < c := fun hlt => hp ⟨hcb, hlt⟩
        exact le_trans (Nat.le_of_not_lt this) (selectCSID_foldl_ge b rest mx)
    · by_cases hp : d ∈ b ∧ mx < d
      · simp only [if_pos hp]; exact ih d c h hcb
      · simp only [if_neg hp]; exact ih mx c h hcb

theorem selectCSID_foldl_mem (b : List Nat) (a : List Nat) :
    ∀ mx : Nat,
      a.foldl (fun mx csid => if csid ∈ b ∧ mx < csid then csid else mx) mx = mx ∨
      (a.foldl (fun mx csid => if csid ∈ b ∧ mx < csid then csid else mx) mx ∈ a ∧
       a.foldl (fun mx csid => if csid ∈ b ∧ mx < csid then csid else mx) mx ∈ b) := by
  induction a with
  | nil => intro mx; left; simp
  | cons d rest ih =>
    intro mx
    simp only [List.foldl_cons]
    by_cases hp : d ∈ b ∧ mx < d
    · simp only [if_pos hp]
      rcases ih d with h | h
      · right
        rw [h]
        exact ⟨List.mem_cons_self _ _, hp.1⟩
      · right
        exact ⟨List.mem_cons_of_mem _ h.1, h.2⟩
    · simp only [if_neg hp]
      rcases ih mx with h | h
      · left; exact h
      · right
        exact ⟨List.mem_cons_of_mem _ h.1, h.2⟩

theorem hexEncodeByte_length (b : Nat) : (hexEncodeByte b).length = 2 := rfl

set_option maxRecDepth 8192 in
theorem hexDecode_hexEncode : ∀ b : Nat, b < 256 → hexDecodeByte (hexEncodeByte b) = some b := by
  decide

/-- C6 (confirmed): for every two key sets sharing at least one CSID,
`SelectCSID` returns a CSID present in both sets that is an upper bound
of all shared CSIDs, i.e. the maximum shared CSID; in particular the
key sets 0x1a/0x2a/0x3a versus 0x2a/0x3a select 0x3a. -/
theorem claim_C6 :
    (∀ a b : List Nat, (∃ c, c ∈ a ∧ c ∈ b) →
      SelectCSID a b ∈ a ∧ SelectCSID a b ∈ b ∧
        ∀ c, c ∈ a → c ∈ b → c ≤ SelectCSID a b) ∧
    SelectCSID [0x1a, 0x2a, 0x3a] [0x2a, 0x3a] = 0x3a := by
  constructor
  · rintro a b ⟨c, hca, hcb⟩
    have hsel : SelectCSID a b =
        a.foldl (fun mx csid => if csid ∈ b ∧ mx < csid then csid else mx) 0 := rfl
    have hub : ∀ d, d ∈ a → d ∈ b → d ≤ SelectCSID a b := by
      intro d hda hdb
      rw [hsel]
      exact selectCSID_foldl_ub b a 0 d hda hdb
    refine ⟨?_, ?_, hub⟩ <;>
    · rcases selectCSID_foldl_mem b a 0 with h | h
      · have hc0 : c = 0 := Nat.le_zero.mp (by
          have := hub c hca hcb
          rw [hsel, h] at this
          exact this)
        rw [hsel, h, ← hc0]
        first
        | exact hca
        | exact hcb
      · rw [hsel]
        first
        | exact h.1
        | exact h.2
  · decide

theorem claim_C6_witness :
    SelectCSID [26, 42, 58] [42, 58] ∈ [26, 42, 58] ∧
      SelectCSID [26, 42, 58] [42, 58] ∈ [42, 58] :=
  ⟨(claim_C6.1 [26, 42, 58] [42, 58] ⟨42, by decide, by decide⟩).1,
   (claim_C6.1 [26, 42, 58] [42, 58] ⟨42, by decide, by decide⟩).2.1⟩

/-- C7 (confirmed, negotiation wrapper modelled from the spec): for key
sets sharing no CSID, negotiation yields the failure `InvalidKeys`; in
particular 0x1a versus 0x2a fails with `InvalidKeys`. -/
theorem claim_C7 :
    (∀ a b : List Nat, (∀ c ∈ a, c ∉ b) →
      negotiateCSID a b = Except.error CSErr.invalidKeys) ∧
    negotiateCSID [0x1a] [0x2a] = Except.error CSErr.invalidKeys := by
  constructor
  · intro a b h
    unfold negotiateCSID
    rw [if_neg]
    intro hany
    rcases List.any_eq_true.mp hany with ⟨c, hc, hcb⟩
    exact h c hc (of_decide_eq_true hcb)
  · rfl

theorem claim_C7_witness :
    negotiateCSID [3] [4] = Except.error CSErr.invalidKeys :=
  claim_C7.1 [3] [4] (by decide)

/-- C10 (confirmed): for every Parts map with byte-sized keys and
non-empty 52-character string values, unmarshalling the marshalled form
returns the original map. -/
theorem claim_C10 (p : List (Nat × String))
    (hkeys : ∀ kv ∈ p, kv.1 < 256)
    (hnd : (p.map Prod.fst).Nodup)
    (hvals : ∀ kv ∈ p, kv.2.length = 52) :
    partsUnmarshalJSON (partsMarshalJSON p) = Except.ok p := by
  induction p with
  | nil => rfl
  | cons kv rest ih =>
    obtain ⟨c, s⟩ := kv
    have hc : c < 256 := hkeys (c, s) (List.mem_cons_self _ _)
    have hs : s.length = 52 := hvals (c, s) (List.mem_cons_self _ _)
    have hne : ¬ s = "" := by
      intro hc2
      rw [hc2] at hs
      simp at hs
    have hrest : partsUnmarshalJSON (partsMarshalJSON rest) = Except.ok rest :=
      ih (fun kv h => hkeys kv (List.mem_cons_of_mem _ h))
        ((List.nodup_cons.mp hnd).2)
        (fun kv h => hvals kv (List.mem_cons_of_mem _ h))
    simp only [partsMarshalJSON, List.map_cons] at hrest ⊢
    simp only [partsUnmarshalJSON, hexEncodeByte_length, hexDecode_hexEncode c hc,
      hs, hne, hrest]
    simp

theorem claim_C10_witness :
    partsUnmarshalJSON (partsMarshalJSON
      [(26, "aaaaaaaaaaaaaaaaaaaaaaaaaaaaaaaaaaaaaaaaaaaaaaaaaaaa")]) =
    Except.ok [(26, "aaaaaaaaaaaaaaaaaaaaaaaaaaaaaaaaaaaaaaaaaaaaaaaaaaaa")] :=
  claim_C10 [(26, "aaaaaaaaaaaaaaaaaaaaaaaaaaaaaaaaaaaaaaaaaaaaaaaaaaaa")]
    (by decide) (by decide) (by decide)

theorem get_line_active_lines (s : CtrlState) (cmd : cmd_line_get) :
    (get_line s cmd).1.active_lines = s.active_lines := by
  cases hl : lookupA s.lines cmd.hashname <;> simp only [get_line, hl]
  · split
    · rfl
    · split <;> rfl

theorem unregister_line_active_lines (s : CtrlState) (l : line_t) :
    (unregister_line s l).1.active_lines = s.active_lines := by
  unfold unregister_line
  by_cases h : l.peer_down_state = true <;> simp [h]

theorem add_peer_active_lines (s : CtrlState) (a : addr_t) :
    (add_peer s a).1.active_lines = s.active_lines := by
  unfold add_peer
  by_cases h : (pt_add_peer s.peers a).2.2 = true <;>
    simp [h, get_line_active_lines]

theorem active_token_keyed_step (s : CtrlState) (m : Msg)
    (ih : ∀ kv ∈ s.active_lines, kv.1 = kv.2.id) :
    ∀ kv ∈ (ctrl_step s m).1.active_lines, kv.1 = kv.2.id := by
  intro kv hkv
  unfold ctrl_step at hkv
  cases hmode : s.mode <;> simp only [hmode] at hkv
  case stopped => exact ih kv hkv
  case terminating =>
    by_cases he : s.lines.isEmpty = true
    · rw [if_pos he] at hkv
      exact ih kv hkv
    · rw [if_neg he] at hkv
      cases m <;> simp only [run_terminating_loop_step] at hkv <;>
        first
          | exact ih kv hkv
          | exact ih kv (mem_eraseA hkv)
          | (rw [unregister_line_active_lines] at hkv
             exact ih kv hkv)
  case running =>
    cases m <;> simp only [run_active_loop_step] at hkv <;>
      first
        | exact ih kv hkv
        | exact ih kv (mem_eraseA hkv)
        | exact (mem_insertA hkv).elim (fun h => by rw [h]) (fun h => ih kv h)
        | (rw [unregister_line_active_lines] at hkv
           exact ih kv hkv)
        | (rw [get_line_active_lines] at hkv
           exact ih kv hkv)
        | (rw [add_peer_active_lines] at hkv
           exact ih kv hkv)

theorem reachable_token_keyed (s : CtrlState) (h : Reachable s) :
    ∀ kv ∈ s.active_lines, kv.1 = kv.2.id := by
  induction h with
  | init => intro kv hkv; simp [init_state] at hkv
  | step s m _ ih => exact active_token_keyed_step s m ih

/-- C1 (corrected): in every state reachable by the controller's
message-handling loop, every line stored in `active_lines` is stored
under the key equal to its own local token `l.prv_key.id`.  The second
half of the original claim (the line is also present in `lines`) fails;
see the counterexample. -/
theorem claim_C1_amended (s : CtrlState) (h : Reachable s) (k : Nat) (l : line_t)
    (hl : lookupA s.active_lines k = some l) : k = l.id :=
  reachable_token_keyed s h (k, l) (lookupA_mem hl)

theorem claim_C1_amended_witness : 5 = sample_line.id :=
  claim_C1_amended (ctrl_step init_state (Msg.activate sample_line)).1
    (Reachable.step init_state (Msg.activate sample_line) Reachable.init)
    5 sample_line (by decide)

/-- C1 counterexample: a single ActivateLine message from the initial
state reaches a state whose line is present in `active_lines` but
absent from `lines`, so such states are reachable by the controller's
message-handling loop. -/
theorem claim_C1_counterexample :
    ¬ (∀ s : CtrlState, Reachable s → ∀ k l, lookupA s.active_lines k = some l →
        k = l.id ∧ (lookupA s.lines l.peer.addr.hashname).isSome = true) := by
  intro hclaim
  have h := hclaim (ctrl_step init_state (Msg.activate sample_line)).1
    (Reachable.step init_state (Msg.activate sample_line) Reachable.init)
    5 sample_line (by decide)
  exact (by decide :
    ¬ (lookupA (ctrl_step init_state (Msg.activate sample_line)).1.lines
        sample_line.peer.addr.hashname).isSome = true) h.2

/-- C2 (corrected; peer table modelled from the spec): `get_line`
returns the existing line when one exists; otherwise it adds or merges
the peer record and returns nil when the peer is down; it initiates
opening (creating and storing a new line) and returns the new line only
when the merged peer address has a public key or a via and a transport
address; otherwise it returns nil without opening a line. -/
theorem claim_C2_amended (s : CtrlState) (cmd : cmd_line_get) :
    (∀ l, lookupA s.lines cmd.hashname = some l → get_line s cmd = (s, some l)) ∧
    (lookupA s.lines cmd.hashname = none →
      (let res := pt_add_peer s.peers (addr_merge
        { hashname := cmd.hashname
          pubkey := match cmd.pub with | some pk => pk.rsa_pubkey | none => none
          via := 0
          netaddr := none } cmd.addr)
       ((res.2.1.is_down = true →
          (get_line s cmd).2 = none ∧ (get_line s cmd).1.lines = s.lines) ∧
        (res.2.1.is_down = false →
          (((res.2.1.addr.pubkey.isSome ∨ res.2.1.addr.via ≠ 0) ∧
              res.2.1.addr.netaddr.isSome) →
            (get_line s cmd).2 = some (mk_new_line res.2.1) ∧
            lookupA (get_line s cmd).1.lines cmd.hashname =
              some (mk_new_line res.2.1)) ∧
          (¬ ((res.2.1.addr.pubkey.isSome ∨ res.2.1.addr.via ≠ 0) ∧
              res.2.1.addr.netaddr.isSome) →
            (get_line s cmd).2 = none ∧ (get_line s cmd).1.lines = s.lines))))) := by
  constructor
  · intro l hl
    simp only [get_line, hl]
  · intro hl
    refine ⟨?_, ?_⟩
    · intro hdown
      simp only [get_line, hl, hdown, if_true]
      refine ⟨?_, ?_⟩ <;> first | rfl | trivial
    · intro hdown
      constructor
      · intro husable
        simp only [get_line, hl, hdown, if_false, Bool.false_eq_true, if_pos husable]
        refine ⟨?_, ?_⟩
        · first | rfl | trivial
        · rw [lookupA_insertA]
          simp
      · intro husable
        simp only [get_line, hl, hdown, if_false, Bool.false_eq_true, if_neg husable]
        refine ⟨?_, ?_⟩ <;> first | rfl | trivial

theorem claim_C2_amended_witness :
    get_line (ctrl_step init_state (Msg.register sample_line)).1
      { hashname := 9, addr := addr_zero, pub := none, wantsReply := true } =
    ((ctrl_step init_state (Msg.register sample_line)).1, some sample_line) :=
  (claim_C2_amended (ctrl_step init_state (Msg.register sample_line)).1
    { hashname := 9, addr := addr_zero, pub := none, wantsReply := true }).1
    sample_line (by decide)

/-- C2 counterexample: on the initial state, a GetLine request for the
unknown hashname 7 with no hints creates a peer record that is not
down, yet `get_line` returns nil and opens no line, refuting the claim
that GetLine otherwise initiates opening and returns the new line. -/
theorem claim_C2_counterexample :
    (get_line init_state
      { hashname := 7, addr := addr_zero, pub := none, wantsReply := true }).2 = none ∧
    (get_line init_state
      { hashname := 7, addr := addr_zero, pub := none, wantsReply := true }).1.lines = [] ∧
    (pt_add_peer init_state.peers (addr_merge
      { hashname := 7, pubkey := none, via := 0, netaddr := none }
      addr_zero)).2.1.is_down = false := by
  exact ⟨rfl, rfl, rfl⟩

/-- C3 (confirmed): on Shutdown the controller broadcasts shutdown to
every line in `lines` and enters the terminating loop; while
terminating (and `lines` is non-empty) every query (GetPeer,
GetClosestPeers, GetLine, GetActiveLine) replies nil, every line
arriving on the activate or register channels is immediately shut down
without being added to `active_lines` or `lines`, and deactivate and
unregister messages continue to be drained. -/
theorem claim_C3 :
    (∀ s : CtrlState, s.mode = MainMode.running →
      (ctrl_step s Msg.shutdown).2 =
        s.lines.map (fun kv => Effect.lineShutdown kv.2) ∧
      (ctrl_step s Msg.shutdown).1.mode = MainMode.terminating ∧
      (ctrl_step s Msg.shutdown).1.lines = s.lines ∧
      (ctrl_step s Msg.shutdown).1.active_lines = s.active_lines) ∧
    (∀ s h, run_terminating_loop_step s (Msg.getPeer h) =
      (s, [Effect.replyPeer none])) ∧
    (∀ s h n, run_terminating_loop_step s (Msg.getClosest h n) =
      (s, [Effect.replyPeers none])) ∧
    (∀ s cmd, run_terminating_loop_step s (Msg.getLine cmd) =
      (s, [Effect.replyLine none])) ∧
    (∀ s id, run_terminating_loop_step s (Msg.getActive id) =
      (s, [Effect.replyLine none])) ∧
    (∀ s l, run_terminating_loop_step s (Msg.activate l) =
      (s, [Effect.lineShutdown l])) ∧
    (∀ s l, run_terminating_loop_step s (Msg.register l) =
      (s, [Effect.lineShutdown l])) ∧
    (∀ s l, run_terminating_loop_step s (Msg.deactivate l) =
      ({ s with
          active_lines := eraseA s.active_lines l.id
          num_open_lines := s.num_open_lines - 1 },
       [Effect.counterMut CounterId.openLines (-1) false])) ∧
    (∀ s l, run_terminating_loop_step s (Msg.unregister l) =
      unregister_line s l) ∧
    (∀ s m, s.mode = MainMode.terminating → s.lines.isEmpty = false →
      ctrl_step s m = run_terminating_loop_step s m) := by
  refine ⟨?_, fun s h => rfl, fun s h n => rfl, fun s cmd => rfl, fun s id => rfl,
    fun s l => rfl, fun s l => rfl, fun s l => rfl, fun s l => rfl, ?_⟩
  · intro s hmode
    unfold ctrl_step
    rw [hmode]
    exact ⟨rfl, rfl, rfl, rfl⟩
  · intro s m hmode hne
    unfold ctrl_step
    rw [hmode, hne]
    rfl

theorem claim_C3_witness :
    (ctrl_step (ctrl_step init_state (Msg.register sample_line)).1 Msg.shutdown).2 =
      [Effect.lineShutdown sample_line] :=
  ((claim_C3.1 (ctrl_step init_state (Msg.register sample_line)).1 rfl).1).trans (by decide)

/-- C4 (corrected): a newly discovered AddPeer triggers line
establishment — the controller immediately runs `get_line` for the
discovered peer's hashname — but performs no DHT seek: the message
handler emits no seek effect (the helper `seek_discovered_peer` exists
in the sources but is never invoked). -/
theorem claim_C4_amended (s : CtrlState) (a : addr_t)
    (hdisc : (pt_add_peer s.peers a).2.2 = true) :
    (add_peer s a).1 =
      (get_line { s with peers := (pt_add_peer s.peers a).1 }
        { hashname := (pt_add_peer s.peers a).2.1.addr.hashname, addr := addr_zero
          pub := none, wantsReply := false }).1 ∧
    ∀ h, Effect.seek h ∉ (add_peer s a).2 := by
  constructor
  · simp only [add_peer, hdisc, if_true]
  · intro h
    simp only [add_peer]
    intro hc
    simp at hc

theorem claim_C4_amended_witness :
    Effect.seek 11 ∉ (add_peer init_state fresh_addr).2 :=
  (claim_C4_amended init_state fresh_addr rfl).2 11

/-- C4 counterexample: adding the fresh address with hashname 11 on the
initial state is a discovery (`discovered = true`), yet the effects of
handling the AddPeer message contain no seek effect — the controller
performs no DHT seek for a discovered peer. -/
theorem claim_C4_counterexample :
    (pt_add_peer init_state.peers fresh_addr).2.2 = true ∧
    ∀ h, Effect.seek h ∉ (ctrl_step init_state (Msg.addPeer fresh_addr)).2 := by
  refine ⟨rfl, ?_⟩
  intro h
  rw [show (ctrl_step init_state (Msg.addPeer fresh_addr)).2 =
    [Effect.replyAdd ({ addr := fresh_addr, is_down := false }, true)] from rfl]
  simp

/-- C5 (code_bug): the controller mutates `num_open_lines` and
`num_running_lines` with plain non-atomic increments (recorded here
with `isAtomic = false`, from the `+=` statements of the source) while
`PopulateStats` reads the counters with atomic loads; in particular the
ActivateLine handler emits a non-atomic mutation, so the claim that
every counter mutation is atomic is false of the code. -/
theorem claim_C5_bug :
    Effect.counterMut CounterId.openLines 1 false ∈
      (ctrl_step init_state (Msg.activate sample_line)).2 ∧
    (∀ c b, Effect.counterRead c b ∈ PopulateStats → b = true) ∧
    ¬ (∀ (s : CtrlState) (m : Msg) c d b,
        Effect.counterMut c d b ∈ (ctrl_step s m).2 → b = true) := by
  refine ⟨?_, ?_, ?_⟩
  · rw [show (ctrl_step init_state (Msg.activate sample_line)).2 =
      [Effect.counterMut CounterId.openLines 1 false] from rfl]
    simp
  · intro c b hmem
    simp only [PopulateStats, List.mem_cons, List.not_mem_nil, or_false] at hmem
    rcases hmem with h | h | h <;> injection h with h1 h2
  · intro hclaim
    have h := hclaim init_state (Msg.activate sample_line)
      CounterId.openLines 1 false
      (by rw [show (ctrl_step init_state (Msg.activate sample_line)).2 =
          [Effect.counterMut CounterId.openLines 1 false] from rfl]; simp)
    exact Bool.false_ne_true h

/-- C9 (confirmed): if querying the NAT device's external or internal
IP fails during a mapping-mode tick (reconciliation or refresh), the
mapper drops the device reference, clears the mapping table and returns
to discover mode. -/
theorem claim_C9 (env : NatEnv) (tbl : MTbl) (k : TickKind)
    (hfail : env.externalIP = none ∨ env.internalIP = none) :
    (mappingModeTick env tbl k).hasNat = false ∧
    (mappingModeTick env tbl k).tbl = [] ∧
    (mappingModeTick env tbl k).mode = MapperMode.discover := by
  have hdrop : (match k with
      | TickKind.update => updateMappings env tbl
      | TickKind.refresh => refreshMapping env tbl).dropped = true := by
    cases k <;>
      (rcases hfail with h | h
       · simp [updateMappings, refreshMapping, h]
       · cases he : env.externalIP <;>
           simp [updateMappings, refreshMapping, h, he])
  simp [mappingModeTick, hdrop]

theorem claim_C9_witness :
    (mappingModeTick nat_env_fail
      [(("udp", 1, 2), ⟨9, ⟨0, some ("udp", some 1, 2)⟩, false⟩)]
      TickKind.update).tbl = [] ∧
    (mappingModeTick nat_env_fail
      [(("udp", 1, 2), ⟨9, ⟨0, some ("udp", some 1, 2)⟩, false⟩)]
      TickKind.refresh).mode = MapperMode.discover :=
  ⟨(claim_C9 nat_env_fail
      [(("udp", 1, 2), ⟨9, ⟨0, some ("udp", some 1, 2)⟩, false⟩)]
      TickKind.update (Or.inl rfl)).2.1,
   (claim_C9 nat_env_fail
      [(("udp", 1, 2), ⟨9, ⟨0, some ("udp", some 1, 2)⟩, false⟩)]
      TickKind.refresh (Or.inl rfl)).2.2⟩

theorem lookupA_markStale (t : MTbl) (k : MKey) :
    lookupA (markStale t) k = (lookupA t k).map (fun m => { m with stale := true }) := by
  induction t with
  | nil => rfl
  | cons kv rest ih =>
    by_cases h : kv.1 = k <;> simp [markStale, lookupA, h, ih]

theorem lookupA_setFresh (t : MTbl) (k0 k : MKey) :
    lookupA (setFresh t k0) k =
      if k0 = k then (lookupA t k).map (fun m => { m with stale := false })
      else lookupA t k := by
  induction t with
  | nil => by_cases h : k0 = k <;> simp [setFresh, lookupA, h]
  | cons kv rest ih =>
    by_cases h1 : kv.1 = k0
    · by_cases h2 : kv.1 = k
      · have hk : k0 = k := by rw [← h1, h2]
        simp [setFresh, lookupA, h1, h2, hk]
      · have hk : ¬ k0 = k := by
          intro hc
          exact h2 (by rw [h1, hc])
        simp [setFresh, lookupA, h1, h2, hk, ih]
    · by_cases h2 : kv.1 = k
      · have hk : ¬ k0 = k := by
          intro hc
          exact h1 (by rw [h2, hc])
        have hk2 : ¬ k = k0 := fun hc => hk hc.symm
        simp [setFresh, lookupA, h1, h2, hk, hk2]
      · simp [setFresh, lookupA, h1, h2, ih]

theorem keysOf_markStale (t : MTbl) : keysOf (markStale t) = keysOf t := by
  induction t with
  | nil => rfl
  | cons kv rest ih => simp [markStale, keysOf, List.map_cons] at ih ⊢; exact ih

theorem keysOf_setFresh (t : MTbl) (k : MKey) : keysOf (setFresh t k) = keysOf t := by
  induction t with
  | nil => rfl
  | cons kv rest ih =>
    by_cases h : kv.1 = k <;>
      (simp [setFresh, keysOf, List.map_cons, h] at ih ⊢; exact ih)

theorem keysOf_freshAt (ks : List MKey) (t : MTbl) : keysOf (freshAt ks t) = keysOf t := by
  induction t with
  | nil => rfl
  | cons kv rest ih =>
    by_cases h : kv.1 ∈ ks <;>
      (simp [freshAt, keysOf, List.map_cons, h] at ih ⊢; exact ih)

theorem mem_keysOf_insertA {t : MTbl} {k k2 : MKey} {v : natMapping}
    (h : k2 ∈ keysOf (insertA t k v)) : k2 = k ∨ k2 ∈ keysOf t := by
  rcases List.mem_map.mp h with ⟨kv2, hmem, hfst⟩
  rcases mem_insertA hmem with h1 | h1
  · left; rw [← hfst, h1]
  · right; exact hfst ▸ List.mem_map_of_mem Prod.fst h1

theorem nodup_insertA {t : MTbl} {k : MKey} {v : natMapping}
    (hnd : (keysOf t).Nodup) : (keysOf (insertA t k v)).Nodup := by
  induction t with
  | nil => simp [insertA, keysOf]
  | cons kv rest ih =>
    simp only [keysOf, List.map_cons, List.nodup_cons] at hnd
    by_cases h : kv.1 = k
    · simp only [insertA, if_pos h, keysOf, List.map_cons, List.nodup_cons]
      exact ⟨h ▸ hnd.1, hnd.2⟩
    · simp only [insertA, if_neg h, keysOf, List.map_cons, List.nodup_cons]
      refine ⟨?_, ih hnd.2⟩
      intro hc
      rcases mem_keysOf_insertA hc with h1 | h1
      · exact h h1
      · exact hnd.1 h1

theorem lookupA_of_mem_nodup {κ α : Type} [DecidableEq κ] {t : List (κ × α)} {k : κ} {v : α}
    (hnd : (t.map Prod.fst).Nodup) (hm : (k, v) ∈ t) : lookupA t k = some v := by
  induction t with
  | nil => simp at hm
  | cons kv rest ih =>
    simp only [List.map_cons, List.nodup_cons] at hnd
    rcases List.mem_cons.mp hm with h | h
    · rw [← h]
      simp [lookupA]
    · have h1 : ¬ kv.1 = k := by
        intro hc
        exact hnd.1 (hc ▸ List.mem_map_of_mem Prod.fst h)
      simp [lookupA, h1, ih hnd.2 h]

theorem mem_setFresh {t : MTbl} {k : MKey} {kv2 : MKey × natMapping}
    (h : kv2 ∈ setFresh t k) :
    kv2 ∈ t ∨ (kv2.1 = k ∧ ∃ m0, (kv2.1, m0) ∈ t ∧ kv2.2 = { m0 with stale := false }) := by
  induction t with
  | nil => simp [setFresh] at h
  | cons kv rest ih =>
    by_cases h1 : kv.1 = k
    · simp only [setFresh, if_pos h1] at h
      rcases List.mem_cons.mp h with h2 | h2
      · right
        refine ⟨by rw [h2, h1], kv.2, ?_, by rw [h2]⟩
        rw [h2]
        exact List.mem_cons_self _ _
      · rcases ih h2 with h3 | ⟨h3, m0, h4, h5⟩
        · exact Or.inl (List.mem_cons_of_mem _ h3)
        · exact Or.inr ⟨h3, m0, List.mem_cons_of_mem _ h4, h5⟩
    · simp only [setFresh, if_neg h1] at h
      rcases List.mem_cons.mp h with h2 | h2
      · exact Or.inl (h2 ▸ List.mem_cons_self _ _)
      · rcases ih h2 with h3 | ⟨h3, m0, h4, h5⟩
        · exact Or.inl (List.mem_cons_of_mem _ h3)
        · exact Or.inr ⟨h3, m0, List.mem_cons_of_mem _ h4, h5⟩

theorem freshAt_nil_keys (t : MTbl) : freshAt [] t = t := by
  induction t with
  | nil => rfl
  | cons kv rest ih => simp [freshAt, ih]

theorem freshAt_setFresh (ks : List MKey) (k : MKey) (t : MTbl) :
    freshAt ks (setFresh t k) = freshAt (k :: ks) t := by
  induction t with
  | nil => rfl
  | cons kv rest ih =>
    by_cases h1 : kv.1 = k
    · by_cases h2 : kv.1 ∈ ks <;>
        simp [setFresh, freshAt, h1, h2, ih, List.mem_cons]
    · by_cases h2 : kv.1 ∈ ks <;>
        simp [setFresh, freshAt, h1, h2, ih, List.mem_cons]

theorem mem_markStale {t : MTbl} {kv : MKey × natMapping} (h : kv ∈ markStale t) :
    kv.2.stale = true := by
  induction t with
  | nil => simp [markStale] at h
  | cons kv0 rest ih =>
    rcases List.mem_cons.mp h with h1 | h1
    · rw [h1]
    · exact ih h1

theorem relKeys_mem {iip : Nat} {addrs : List LAddr} {k : MKey} :
    k ∈ relKeys iip addrs ↔ ∃ a ∈ addrs, relevantKey iip a = some k := by
  unfold relKeys
  exact List.mem_filterMap

theorem updStep_skip (env : NatEnv) (eip iip : Nat) (acc : UpdAcc) (a : LAddr)
    (hrel : relevantKey iip a = none) : updStep env eip iip acc a = acc := by
  unfold updStep
  unfold relevantKey at hrel
  cases hna : asNATableAddr a with
  | none => rfl
  | some tri =>
    obtain ⟨proto, ip, port⟩ := tri
    rw [hna] at hrel
    dsimp only at hrel ⊢
    by_cases hip : ip = iip
    · rw [if_pos hip] at hrel
      cases hrel
    · rw [if_pos hip]

theorem updStep_rel (env : NatEnv) (eip iip : Nat) (acc : UpdAcc) (a : LAddr)
    (k : MKey) (hrel : relevantKey iip a = some k) :
    (∃ m0, lookupA acc.old k = some m0 ∧
      updStep env eip iip acc a = ⟨setFresh acc.old k, setFresh acc.cur k, acc.adds⟩) ∨
    (lookupA acc.old k = none ∧
      ((∃ eport g, env.addPort k.1 k.2.2 = some eport ∧ env.makeGlobal a eip eport = some g ∧
        updStep env eip iip acc a =
          ⟨acc.old, insertA acc.cur k ⟨g, a, false⟩, acc.adds ++ [(k.1, k.2.2)]⟩) ∨
       ((env.addPort k.1 k.2.2 = none ∨
          ∃ eport, env.addPort k.1 k.2.2 = some eport ∧ env.makeGlobal a eip eport = none) ∧
        updStep env eip iip acc a = ⟨acc.old, acc.cur, acc.adds ++ [(k.1, k.2.2)]⟩))) := by
  unfold relevantKey at hrel
  cases hna : asNATableAddr a with
  | none => rw [hna] at hrel; cases hrel
  | some tri =>
    obtain ⟨proto, ip, port⟩ := tri
    rw [hna] at hrel
    dsimp only at hrel
    by_cases hip : ip = iip
    · rw [if_pos hip] at hrel
      have hk : k = (proto, ip, port) := (Option.some.inj hrel).symm
      subst hk
      have hstep : updStep env eip iip acc a =
          (match lookupA acc.old (proto, ip, port) with
           | some _ =>
             ⟨setFresh acc.old (proto, ip, port), setFresh acc.cur (proto, ip, port), acc.adds⟩
           | none =>
             match env.addPort proto port with
             | none => ⟨acc.old, acc.cur, acc.adds ++ [(proto, port)]⟩
             | some eport =>
               match env.makeGlobal a eip eport with
               | none => ⟨acc.old, acc.cur, acc.adds ++ [(proto, port)]⟩
               | some g =>
                 ⟨acc.old, insertA acc.cur (proto, ip, port) ⟨g, a, false⟩,
                  acc.adds ++ [(proto, port)]⟩) := by
        unfold updStep
        rw [hna]
        dsimp only
        rw [if_neg (not_not_intro hip)]
      cases hlk : lookupA acc.old (proto, ip, port) with
      | some m0 =>
        left
        refine ⟨m0, ?_, ?_⟩
        · rfl
        · simp only [hstep, hlk]
      | none =>
        right
        refine ⟨?_, ?_⟩
        · rfl
        cases hap : env.addPort proto port with
        | none =>
          right
          refine ⟨Or.inl ?_, ?_⟩
          · rfl
          · simp only [hstep, hlk, hap]
        | some eport =>
          cases hg : env.makeGlobal a eip eport with
          | none =>
            right
            refine ⟨Or.inr ⟨eport, ?_, ?_⟩, ?_⟩
            · rfl
            · first | rfl | exact hg
            · simp only [hstep, hlk, hap, hg]
          | some g =>
            left
            refine ⟨eport, g, ?_, ?_, ?_⟩
            · rfl
            · first | rfl | exact hg
            · simp only [hstep, hlk, hap, hg]
    · rw [if_neg hip] at hrel
      cases hrel

theorem updFold_keeps_fresh (env : NatEnv) (eip iip : Nat) :
    ∀ (addrs : List LAddr) (acc : UpdAcc) (k : MKey),
      (∃ m, lookupA acc.cur k = some m ∧ m.stale = false) →
      ∃ m, lookupA (addrs.foldl (updStep env eip iip) acc).cur k = some m ∧ m.stale = false := by
  intro addrs
  induction addrs with
  | nil => intro acc k h; exact h
  | cons a0 rest ih =>
    intro acc k h
    simp only [List.foldl_cons]
    apply ih
    cases hrel : relevantKey iip a0 with
    | none => rw [updStep_skip env eip iip acc a0 hrel]; exact h
    | some k0 =>
      obtain ⟨m, hm, hms⟩ := h
      rcases updStep_rel env eip iip acc a0 k0 hrel with ⟨m0, _, hstep⟩ | ⟨_, hbr⟩
      · rw [hstep]
        show ∃ m2, lookupA (setFresh acc.cur k0) k = some m2 ∧ m2.stale = false
        rw [lookupA_setFresh]
        by_cases hkey : k0 = k
        · rw [if_pos hkey, hm]
          exact ⟨{ m with stale := false }, rfl, rfl⟩
        · rw [if_neg hkey]
          exact ⟨m, hm, hms⟩
      · rcases hbr with ⟨eport, g, _, _, hstep⟩ | ⟨_, hstep⟩
        · rw [hstep]
          show ∃ m2, lookupA (insertA acc.cur k0 ⟨g, a0, false⟩) k = some m2 ∧ m2.stale = false
          rw [lookupA_insertA]
          by_cases hkey : k0 = k
          · rw [if_pos hkey]
            exact ⟨⟨g, a0, false⟩, rfl, rfl⟩
          · rw [if_neg hkey]
            exact ⟨m, hm, hms⟩
        · rw [hstep]
          exact ⟨m, hm, hms⟩

theorem updStep_dom (env : NatEnv) (eip iip : Nat) (acc : UpdAcc) (a : LAddr)
    (hdom : ∀ k, (lookupA acc.old k).isSome = true → (lookupA acc.cur k).isSome = true) :
    ∀ k, (lookupA (updStep env eip iip acc a).old k).isSome = true →
      (lookupA (updStep env eip iip acc a).cur k).isSome = true := by
  intro k
  cases hrel : relevantKey iip a with
  | none => rw [updStep_skip env eip iip acc a hrel]; exact hdom k
  | some k0 =>
    rcases updStep_rel env eip iip acc a k0 hrel with ⟨m0, _, hstep⟩ | ⟨_, hbr⟩
    · rw [hstep]
      show (lookupA (setFresh acc.old k0) k).isSome = true →
        (lookupA (setFresh acc.cur k0) k).isSome = true
      rw [lookupA_setFresh, lookupA_setFresh]
      by_cases hkey : k0 = k
      · rw [if_pos hkey, if_pos hkey]
        intro h
        have h2 : (lookupA acc.old k).isSome = true := by
          cases hx : lookupA acc.old k
          · rw [hx] at h
            simp at h
          · rfl
        have h3 := hdom k h2
        cases hcur : lookupA acc.cur k
        · rw [hcur] at h3
          simp at h3
        · rfl
      · rw [if_neg hkey, if_neg hkey]
        exact hdom k
    · rcases hbr with ⟨eport, g, _, _, hstep⟩ | ⟨_, hstep⟩
      · rw [hstep]
        show (lookupA acc.old k).isSome = true →
          (lookupA (insertA acc.cur k0 ⟨g, a, false⟩) k).isSome = true
        rw [lookupA_insertA]
        by_cases hkey : k0 = k
        · rw [if_pos hkey]
          intro _
          rfl
        · rw [if_neg hkey]
          exact hdom k
      · rw [hstep]
        exact hdom k

theorem updFold_covers (env : NatEnv) (eip iip : Nat)
    (haddp : ∀ p n, (env.addPort p n).isSome = true)
    (hmg : ∀ a p q, (env.makeGlobal a p q).isSome = true) :
    ∀ (addrs : List LAddr) (acc : UpdAcc),
      (∀ k, (lookupA acc.old k).isSome = true → (lookupA acc.cur k).isSome = true) →
      ∀ a ∈ addrs, ∀ k, relevantKey iip a = some k →
        ∃ m, lookupA (addrs.foldl (updStep env eip iip) acc).cur k = some m ∧
          m.stale = false := by
  intro addrs
  induction addrs with
  | nil => intro acc _ a ha; exact absurd ha (List.not_mem_nil a)
  | cons a0 rest ih =>
    intro acc hdom a ha k hrel
    simp only [List.foldl_cons]
    rcases List.mem_cons.mp ha with heq | hmem
    · subst heq
      apply updFold_keeps_fresh
      rcases updStep_rel env eip iip acc a k hrel with ⟨m0, hlk, hstep⟩ | ⟨hlk, hbr⟩
      · rw [hstep]
        show ∃ m, lookupA (setFresh acc.cur k) k = some m ∧ m.stale = false
        rw [lookupA_setFresh, if_pos rfl]
        have hcur : (lookupA acc.cur k).isSome = true := hdom k (by rw [hlk]; rfl)
        obtain ⟨m, hm⟩ := Option.isSome_iff_exists.mp hcur
        rw [hm]
        exact ⟨{ m with stale := false }, rfl, rfl⟩
      · rcases hbr with ⟨eport, g, _, _, hstep⟩ | ⟨hfail, _⟩
        · rw [hstep]
          show ∃ m, lookupA (insertA acc.cur k ⟨g, a, false⟩) k = some m ∧ m.stale = false
          rw [lookupA_insertA, if_pos rfl]
          exact ⟨⟨g, a, false⟩, rfl, rfl⟩
        · exfalso
          rcases hfail with hap | ⟨eport, hap, hgg⟩
          · have h1 := haddp k.1 k.2.2
            rw [hap] at h1
            exact Bool.false_ne_true h1
          · have h2 := hmg a eip eport
            rw [hgg] at h2
            exact Bool.false_ne_true h2
    · exact ih (updStep env eip iip acc a0)
        (updStep_dom env eip iip acc a0 hdom) a hmem k hrel

theorem updFold_origin (env : NatEnv) (eip iip : Nat) :
    ∀ (addrs : List LAddr) (acc : UpdAcc) (kv : MKey × natMapping),
      kv ∈ (addrs.foldl (updStep env eip iip) acc).cur →
      kv.2.stale = false →
      kv.1 ∈ relKeys iip addrs ∨ ∃ m0, (kv.1, m0) ∈ acc.cur ∧ m0.stale = false := by
  intro addrs
  induction addrs with
  | nil =>
    intro acc kv hmem hstale
    exact Or.inr ⟨kv.2, hmem, hstale⟩
  | cons a0 rest ih =>
    intro acc kv hmem hstale
    simp only [List.foldl_cons] at hmem
    rcases ih (updStep env eip iip acc a0) kv hmem hstale with h | ⟨m0, hm0, hm0s⟩
    · left
      rcases relKeys_mem.mp h with ⟨a, hain, harel⟩
      exact relKeys_mem.mpr ⟨a, List.mem_cons_of_mem _ hain, harel⟩
    · cases hrel : relevantKey iip a0 with
      | none =>
        rw [updStep_skip env eip iip acc a0 hrel] at hm0
        exact Or.inr ⟨m0, hm0, hm0s⟩
      | some k0 =>
        rcases updStep_rel env eip iip acc a0 k0 hrel with ⟨m1, _, hstep⟩ | ⟨_, hbr⟩
        · rw [hstep] at hm0
          rcases mem_setFresh hm0 with h1 | ⟨h1, m2, h2, h3⟩
          · exact Or.inr ⟨m0, h1, hm0s⟩
          · left
            rw [h1]
            exact relKeys_mem.mpr ⟨a0, List.mem_cons_self _ _, hrel⟩
        · rcases hbr with ⟨eport, g, _, _, hstep⟩ | ⟨_, hstep⟩
          · rw [hstep] at hm0
            rcases mem_insertA hm0 with h1 | h1
            · left
              have hk : kv.1 = k0 := congrArg Prod.fst h1
              rw [hk]
              exact relKeys_mem.mpr ⟨a0, List.mem_cons_self _ _, hrel⟩
            · exact Or.inr ⟨m0, h1, hm0s⟩
          · rw [hstep] at hm0
            exact Or.inr ⟨m0, hm0, hm0s⟩

theorem updFold_nodup (env : NatEnv) (eip iip : Nat) :
    ∀ (addrs : List LAddr) (acc : UpdAcc),
      (keysOf acc.cur).Nodup →
      (keysOf (addrs.foldl (updStep env eip iip) acc).cur).Nodup := by
  intro addrs
  induction addrs with
  | nil => intro acc h; exact h
  | cons a0 rest ih =>
    intro acc h
    simp only [List.foldl_cons]
    apply ih
    cases hrel : relevantKey iip a0 with
    | none => rw [updStep_skip env eip iip acc a0 hrel]; exact h
    | some k0 =>
      rcases updStep_rel env eip iip acc a0 k0 hrel with ⟨m1, _, hstep⟩ | ⟨_, hbr⟩
      · rw [hstep]
        show (keysOf (setFresh acc.cur k0)).Nodup
        rw [keysOf_setFresh]
        exact h
      · rcases hbr with ⟨eport, g, _, _, hstep⟩ | ⟨_, hstep⟩
        · rw [hstep]
          show (keysOf (insertA acc.cur k0 ⟨g, a0, false⟩)).Nodup
          exact nodup_insertA h
        · rw [hstep]
          exact h

theorem updFold_noinsert (env : NatEnv) (eip iip : Nat) :
    ∀ (addrs : List LAddr) (acc : UpdAcc),
      (∀ a ∈ addrs, ∀ k, relevantKey iip a = some k → (lookupA acc.old k).isSome = true) →
      addrs.foldl (updStep env eip iip) acc =
        ⟨freshAt (relKeys iip addrs) acc.old, freshAt (relKeys iip addrs) acc.cur,
         acc.adds⟩ := by
  intro addrs
  induction addrs with
  | nil =>
    intro acc _
    simp only [List.foldl_nil, relKeys, List.filterMap_nil, freshAt_nil_keys]
  | cons a0 rest ih =>
    intro acc hcov
    simp only [List.foldl_cons]
    cases hrel : relevantKey iip a0 with
    | none =>
      rw [updStep_skip env eip iip acc a0 hrel]
      rw [ih acc (fun a ha k hk => hcov a (List.mem_cons_of_mem _ ha) k hk)]
      have hkeys : relKeys iip (a0 :: rest) = relKeys iip rest := by
        simp [relKeys, List.filterMap_cons, hrel]
      rw [hkeys]
    | some k0 =>
      have hlk := hcov a0 (List.mem_cons_self _ _) k0 hrel
      rcases updStep_rel env eip iip acc a0 k0 hrel with ⟨m1, _, hstep⟩ | ⟨hnone, _⟩
      · rw [hstep]
        have hcov2 : ∀ a ∈ rest, ∀ k, relevantKey iip a = some k →
            (lookupA (setFresh acc.old k0) k).isSome = true := by
          intro a ha k hk
          rw [lookupA_setFresh]
          by_cases hkey : k0 = k
          · rw [if_pos hkey]
            have h2 := hcov a (List.mem_cons_of_mem _ ha) k hk
            cases hx : lookupA acc.old k
            · rw [hx] at h2
              simp at h2
            · rfl
          · rw [if_neg hkey]
            exact hcov a (List.mem_cons_of_mem _ ha) k hk
        rw [ih ⟨setFresh acc.old k0, setFresh acc.cur k0, acc.adds⟩ hcov2]
        have hkeys : relKeys iip (a0 :: rest) = k0 :: relKeys iip rest := by
          simp [relKeys, List.filterMap_cons, hrel]
        rw [hkeys]
        dsimp only
        rw [freshAt_setFresh, freshAt_setFresh]
      · rw [hnone] at hlk
        simp at hlk

theorem freshAt_markStale_id (R : List MKey) (t : MTbl)
    (hfacts : ∀ kv ∈ t, (kv.2.stale = false → kv.1 ∈ R) ∧ (kv.2.stale = true → kv.1 ∉ R)) :
    freshAt R (markStale t) = t := by
  induction t with
  | nil => rfl
  | cons kv rest ih =>
    have hkv := hfacts kv (List.mem_cons_self _ _)
    have hrest : ∀ kv2 ∈ rest,
        (kv2.2.stale = false → kv2.1 ∈ R) ∧ (kv2.2.stale = true → kv2.1 ∉ R) :=
      fun kv2 h2 => hfacts kv2 (List.mem_cons_of_mem _ h2)
    obtain ⟨k0, m⟩ := kv
    obtain ⟨e, i, st⟩ := m
    simp only [markStale, freshAt]
    rw [ih hrest]
    cases hst : st
    · have hin : k0 ∈ R := hkv.1 (by rw [hst])
      simp [hin]
    · have hnin : k0 ∉ R := hkv.2 (by rw [hst])
      simp [hnin]

/-- C8 (confirmed): running the NAT reconciliation tick
(`updateMappings`) a second time, when local addresses have not changed
(same environment) and the first run succeeded (the device IP queries,
port-mapping requests and global-address constructions all succeed),
produces no new AddPortMapping calls, deletes no mapping, and leaves
the mapping table unchanged. -/
theorem claim_C8 (env : NatEnv) (tbl0 : MTbl) (eip iip : Nat)
    (hext : env.externalIP = some eip)
    (hin : env.internalIP = some iip)
    (haddp : ∀ p n, (env.addPort p n).isSome = true)
    (hmg : ∀ a p q, (env.makeGlobal a p q).isSome = true)
    (hnd : (tbl0.map Prod.fst).Nodup) :
    (updateMappings env (updateMappings env tbl0).tbl).adds = [] ∧
    (updateMappings env (updateMappings env tbl0).tbl).dels = [] ∧
    (updateMappings env (updateMappings env tbl0).tbl).tbl = (updateMappings env tbl0).tbl := by
  have hrun : ∀ t : MTbl, updateMappings env t =
      ⟨false,
       (env.localAddrs.foldl (updStep env eip iip) ⟨markStale t, markStale t, []⟩).cur.filter
         (fun kv => ! swept kv),
       (env.localAddrs.foldl (updStep env eip iip) ⟨markStale t, markStale t, []⟩).adds,
       ((env.localAddrs.foldl (updStep env eip iip) ⟨markStale t, markStale t, []⟩).cur.filter
         swept).map (fun kv => delCall kv.2.internal)⟩ := by
    intro t
    unfold updateMappings
    rw [hext]
    dsimp only
    rw [hin]
  have hnd0 : (keysOf (markStale tbl0)).Nodup := by
    rw [keysOf_markStale]
    exact hnd
  have hnodup1 : (keysOf (env.localAddrs.foldl (updStep env eip iip)
      ⟨markStale tbl0, markStale tbl0, []⟩).cur).Nodup :=
    updFold_nodup env eip iip env.localAddrs ⟨markStale tbl0, markStale tbl0, []⟩ hnd0
  have hcov1 : ∀ a ∈ env.localAddrs, ∀ k, relevantKey iip a = some k →
      ∃ m, lookupA (env.localAddrs.foldl (updStep env eip iip)
        ⟨markStale tbl0, markStale tbl0, []⟩).cur k = some m ∧ m.stale = false :=
    updFold_covers env eip iip haddp hmg env.localAddrs
      ⟨markStale tbl0, markStale tbl0, []⟩ (fun k h => h)
  have htbl1 : (updateMappings env tbl0).tbl =
      (env.localAddrs.foldl (updStep env eip iip)
        ⟨markStale tbl0, markStale tbl0, []⟩).cur.filter (fun kv => ! swept kv) := by
    rw [hrun tbl0]
  -- facts about the first run's output table
  have hnodupr1 : (keysOf ((env.localAddrs.foldl (updStep env eip iip)
      ⟨markStale tbl0, markStale tbl0, []⟩).cur.filter (fun kv => ! swept kv))).Nodup := by
    unfold keysOf
    exact ((List.filter_sublist _).map Prod.fst).nodup hnodup1
  have hlkr1 : ∀ a ∈ env.localAddrs, ∀ k, relevantKey iip a = some k →
      ∃ m, lookupA ((env.localAddrs.foldl (updStep env eip iip)
        ⟨markStale tbl0, markStale tbl0, []⟩).cur.filter (fun kv => ! swept kv)) k =
          some m ∧ m.stale = false := by
    intro a ha k hk
    obtain ⟨m, hm, hms⟩ := hcov1 a ha k hk
    have hmem : (k, m) ∈ (env.localAddrs.foldl (updStep env eip iip)
        ⟨markStale tbl0, markStale tbl0, []⟩).cur := lookupA_mem hm
    have hpred : (fun kv : MKey × natMapping => ! swept kv) (k, m) = true := by
      simp [swept, hms]
    have hmemf : (k, m) ∈ (env.localAddrs.foldl (updStep env eip iip)
        ⟨markStale tbl0, markStale tbl0, []⟩).cur.filter (fun kv => ! swept kv) :=
      List.mem_filter.mpr ⟨hmem, hpred⟩
    exact ⟨m, lookupA_of_mem_nodup hnodupr1 hmemf, hms⟩
  have hsw : ∀ kv ∈ (env.localAddrs.foldl (updStep env eip iip)
      ⟨markStale tbl0, markStale tbl0, []⟩).cur.filter (fun kv => ! swept kv),
      swept kv = false := by
    intro kv hkv
    have hpred := (List.mem_filter.mp hkv).2
    cases hsw2 : swept kv
    · rfl
    · rw [hsw2] at hpred
      simp at hpred
  have hstale1 : ∀ kv ∈ (env.localAddrs.foldl (updStep env eip iip)
      ⟨markStale tbl0, markStale tbl0, []⟩).cur.filter (fun kv => ! swept kv),
      kv.2.stale = true → sweepValid kv.2.internal = false := by
    intro kv hkv hst
    have h2 := hsw kv hkv
    unfold swept at h2
    rw [hst] at h2
    simpa using h2
  have hnotrel1 : ∀ kv ∈ (env.localAddrs.foldl (updStep env eip iip)
      ⟨markStale tbl0, markStale tbl0, []⟩).cur.filter (fun kv => ! swept kv),
      kv.2.stale = true → kv.1 ∉ relKeys iip env.localAddrs := by
    intro kv hkv hst hinR
    obtain ⟨a, ha, harel⟩ := relKeys_mem.mp hinR
    obtain ⟨m, hm, hms⟩ := hcov1 a ha kv.1 harel
    have hkvmem : kv ∈ (env.localAddrs.foldl (updStep env eip iip)
        ⟨markStale tbl0, markStale tbl0, []⟩).cur := (List.mem_filter.mp hkv).1
    have hlk2 : lookupA (env.localAddrs.foldl (updStep env eip iip)
        ⟨markStale tbl0, markStale tbl0, []⟩).cur kv.1 = some kv.2 :=
      lookupA_of_mem_nodup hnodup1 hkvmem
    rw [hlk2] at hm
    have : kv.2 = m := Option.some.inj hm
    rw [← this] at hms
    rw [hst] at hms
    cases hms
  have hfresh1 : ∀ kv ∈ (env.localAddrs.foldl (updStep env eip iip)
      ⟨markStale tbl0, markStale tbl0, []⟩).cur.filter (fun kv => ! swept kv),
      kv.2.stale = false → kv.1 ∈ relKeys iip env.localAddrs := by
    intro kv hkv hst
    have hkvmem : kv ∈ (env.localAddrs.foldl (updStep env eip iip)
        ⟨markStale tbl0, markStale tbl0, []⟩).cur := (List.mem_filter.mp hkv).1
    rcases updFold_origin env eip iip env.localAddrs
        ⟨markStale tbl0, markStale tbl0, []⟩ kv hkvmem hst with h | ⟨m0, hm0, hm0s⟩
    · exact h
    · have := mem_markStale hm0
      rw [this] at hm0s
      cases hm0s
  -- the second run
  have hcovr2pre : ∀ a ∈ env.localAddrs, ∀ k, relevantKey iip a = some k →
      (lookupA (markStale ((env.localAddrs.foldl (updStep env eip iip)
        ⟨markStale tbl0, markStale tbl0, []⟩).cur.filter (fun kv => ! swept kv))) k).isSome
        = true := by
    intro a ha k hk
    obtain ⟨m, hm, _⟩ := hlkr1 a ha k hk
    rw [lookupA_markStale, hm]
    rfl
  have hni := updFold_noinsert env eip iip env.localAddrs
    ⟨markStale ((env.localAddrs.foldl (updStep env eip iip)
        ⟨markStale tbl0, markStale tbl0, []⟩).cur.filter (fun kv => ! swept kv)),
     markStale ((env.localAddrs.foldl (updStep env eip iip)
        ⟨markStale tbl0, markStale tbl0, []⟩).cur.filter (fun kv => ! swept kv)), []⟩
    hcovr2pre
  have hid : freshAt (relKeys iip env.localAddrs)
      (markStale ((env.localAddrs.foldl (updStep env eip iip)
        ⟨markStale tbl0, markStale tbl0, []⟩).cur.filter (fun kv => ! swept kv))) =
      (env.localAddrs.foldl (updStep env eip iip)
        ⟨markStale tbl0, markStale tbl0, []⟩).cur.filter (fun kv => ! swept kv) :=
    freshAt_markStale_id _ _ (fun kv hkv => ⟨hfresh1 kv hkv, hnotrel1 kv hkv⟩)
  have hswall : ∀ kv ∈ (env.localAddrs.foldl (updStep env eip iip)
      ⟨markStale tbl0, markStale tbl0, []⟩).cur.filter (fun kv => ! swept kv),
      swept kv = false := hsw
  -- assemble
  rw [htbl1, hrun]
  dsimp only
  rw [hni]
  dsimp only
  rw [hid]
  refine ⟨rfl, ?_, ?_⟩
  · have hfe : ((env.localAddrs.foldl (updStep env eip iip)
        ⟨markStale tbl0, markStale tbl0, []⟩).cur.filter (fun kv => ! swept kv)).filter
          swept = [] := by
      rw [List.filter_eq_nil_iff]
      intro kv hkv
      rw [hswall kv hkv]
      simp
    rw [hfe]
    rfl
  · rw [List.filter_eq_self.mpr]
    intro kv hkv
    rw [hswall kv hkv]
    rfl

theorem claim_C8_witness :
    (updateMappings nat_env_ok (updateMappings nat_env_ok []).tbl).adds = [] ∧
    (updateMappings nat_env_ok (updateMappings nat_env_ok []).tbl).tbl =
      (updateMappings nat_env_ok []).tbl :=
  ⟨(claim_C8 nat_env_ok [] 8 1 rfl rfl (fun p n => rfl) (fun a p q => rfl)
      (by decide)).1,
   (claim_C8 nat_env_ok [] 8 1 rfl rfl (fun p n => rfl) (fun a p q => rfl)
      (by decide)).2.2⟩

end Telehash
